import Mathlib

/-!
# Verification of the `transport` resilience library

A shallow embedding of the request-resilience engine of the
`asecurityteam/transport` Go package, together with theorems settling the
frozen claims about its specification.

Modelling conventions:

* `http.Request` is opaque for the purposes of the retry logic (the policies
  never inspect it), so it is a bare identifier.
* `http.Response` keeps the fields the code reads: the status code and the
  header multi-map.
* Go `error` values are an inductive with the distinguished sentinel
  `context.DeadlineExceeded` and `context.Canceled` values.
* Go `time.Duration` is `Int` (nanoseconds); `float64` arithmetic is carried
  out exactly over `ℚ` with Go's float-to-Duration conversion modelled as
  truncation toward zero.
* The wrapped `http.RoundTripper` of a decorator is modelled as a stream
  `Nat → RTResult` giving the result of the k-th invocation (0-based).
* Context cancellation during a `select` wait is modelled by an oracle
  `ctxDone : Nat → Bool`: `ctxDone n = true` means the outer context's
  `Done` channel fires before the timer of the wait preceding attempt `n`.
* Decorator loops without an intrinsic bound (`RetryAfter`, `Hedger`) are
  given fuel; exhausting the fuel yields a distinguished "still running"
  outcome (`none`) so that no fuel artifact can be mistaken for a returned
  value.
-/

/-- Go `error` values that the engine compares against or produces. -/
inductive GoErr where
  | deadlineExceeded
  | canceled
  | ioError (code : Nat)
  | other (code : Nat)
deriving DecidableEq, Repr

/-- An `http.Request`, opaque to the policy logic. -/
structure Request where
  id : Nat
deriving DecidableEq, Repr

/-- The fields of an `http.Response` that the engine reads: status code and
headers (a multi-map; Go canonicalizes keys, and all keys used by the code,
such as `Retry-After`, are already in canonical form). -/
structure Response where
  statusCode : Int
  headers : List (String × String)
deriving DecidableEq, Repr

/-- `http.Header.Get`: first value associated with the (canonical) key, or
the empty string when the key is absent. -/
def headerGet (h : List (String × String)) (key : String) : String :=
  match h.find? (fun p => p.fst = key) with
  | some p => p.snd
  | none => ""

/-- The `(resp *http.Response, err error)` pair returned by a RoundTrip. -/
structure RTResult where
  resp : Option Response
  err : Option GoErr
deriving DecidableEq, Repr

/-! ## Policy framework (`retry.go`)

The stock `Retrier` implementations form an inductive type; `retry` mirrors
each Go `Retry` method, returning the vote together with the (possibly
mutated) retrier, since `LimitedRetrier.Retry` increments its `attempts`
field through the receiver pointer. -/

/-- The stock `Retrier` instances of `retry.go`: `StatusCodeRetrier`
(a set of codes), `TimeoutRetrier` (a timeout duration), and
`LimitedRetrier` (a limit, an attempt counter, and wrapped retriers). -/
inductive Retrier where
  | statusCode (codes : List Int)
  | timeout (timeout : Int)
  | limited (limit : Int) (attempts : Int) (retries : List Retrier)

namespace Retrier

/-- `StatusCodeRetrier.Retry`: true iff the response is non-nil and its
status code is in the configured set. -/
def statusCodeRetry (codes : List Int) (resp : Option Response) : Bool :=
  codes.any (fun code =>
    match resp with
    | some r => r.statusCode = code
    | none => false)

/-- `TimeoutRetrier.Retry`: true iff the error is `context.DeadlineExceeded`. -/
def timeoutRetry (e : Option GoErr) : Bool :=
  e = some GoErr.deadlineExceeded

mutual
/-- One `Retry` call on a retrier: the vote and the updated retrier. -/
def retry : Retrier → Request → Option Response → Option GoErr → Bool × Retrier
  | statusCode codes, _, resp, _ => (statusCodeRetry codes resp, statusCode codes)
  | timeout t, _, _, e => (timeoutRetry e, timeout t)
  | limited limit attempts rs, req, resp, e =>
      -- LimitedRetrier.Retry: once the limit is reached, always false;
      -- otherwise increment the counter and OR the wrapped votes
      -- (short-circuiting, as the Go range loop returns on first true).
      if attempts ≥ limit then (false, limited limit attempts rs)
      else
        let (b, rs') := retryList rs req resp e
        (b, limited limit (attempts + 1) rs')

/-- The short-circuiting OR over a list of retriers used by both
`LimitedRetrier.Retry` and `Retry.shouldRetry`: asks each retrier in order,
returning on the first `true`; retriers after that one are not consulted
(and so not mutated). -/
def retryList : List Retrier → Request → Option Response → Option GoErr → Bool × List Retrier
  | [], _, _, _ => (false, [])
  | r :: rs, req, resp, e =>
      let (b, r') := retry r req resp e
      if b then (true, r' :: rs)
      else
        let (b', rs') := retryList rs req resp e
        (b', r' :: rs')
end

/-- A retrier whose `Retry` method does not mutate it (the stock
`StatusCodeRetrier` and `TimeoutRetrier`). -/
def stateless : Retrier → Prop
  | statusCode _ => True
  | timeout _ => True
  | limited _ _ _ => False

end Retrier

/-! ## `Retry.RoundTrip` (`retry.go`)

The decorator sends once, then loops while `shouldRetry` (the OR over the
retrier list) votes `true`: each iteration first races the backoff timer
against the outer context (`parentCtx.Done()` winning returns
`(nil, parentCtx.Err())`), then re-sends a fresh copy of the request.
The loop below threads the retrier list state, counts wrapped invocations
(`n`), and carries the last observed result.  The per-attempt `Requester`
mutations and the backoff duration do not influence control flow (the
transport is an abstract stream), so they are absorbed into the stream. -/

/-- The retry loop of `Retry.RoundTrip` after the initial send.  `n` is the
number of wrapped invocations made so far, `cur` the last observed result.
Returns the final result, the total invocation count, and the final
retrier states.  Fuel bounds the recursion; every theorem below supplies
enough fuel for the loop to decide on its own. -/
def retryLoop (fuel : Nat) (T : Nat → RTResult) (ctxDone : Nat → Bool)
    (ctxErr : GoErr) (req : Request) (retriers : List Retrier)
    (n : Nat) (cur : RTResult) : RTResult × Nat × List Retrier :=
  match fuel with
  | 0 => (cur, n, retriers)
  | fuel + 1 =>
      let (b, retriers') := Retrier.retryList retriers req cur.resp cur.err
      if b then
        if ctxDone n then (⟨none, some ctxErr⟩, n, retriers')
        else retryLoop fuel T ctxDone ctxErr req retriers' (n + 1) (T n)
      else (cur, n, retriers')

/-- `Retry.RoundTrip`: initial send, then the retry loop. -/
def retryRoundTrip (fuel : Nat) (T : Nat → RTResult) (ctxDone : Nat → Bool)
    (ctxErr : GoErr) (req : Request) (retriers : List Retrier) :
    RTResult × Nat × List Retrier :=
  retryLoop fuel T ctxDone ctxErr req retriers 1 (T 0)

/-! ## `RetryAfter.RoundTrip`

The repository holds two revisions of this decorator.  The current one
(the one its tests exercise, with the `backoffPolicy` field) sends, and:
on a transport error or a non-429 status returns the pair unchanged; on a
429 whose `Retry-After` header is absent schedules the next attempt after
an internal exponential backoff; on a parseable header value `v` schedules
it after `v` milliseconds; on an unparseable value returns the 429
response as-is.  Every wait races the outer context, whose error is
returned if it fires first. -/

/-- Go `strconv.Atoi`: optional sign, decimal digits, 64-bit range check;
`none` models a non-nil parse error. -/
def goAtoi (s : String) : Option Int :=
  match s.data with
  | [] => none
  | c :: rest =>
    let p :=
      if c = '-' then (true, rest)
      else if c = '+' then (false, rest)
      else (false, c :: rest)
    if p.snd = [] ∨ ¬ (p.snd.all Char.isDigit) then none
    else
      let v : Nat := p.snd.foldl (fun a d => a * 10 + (d.toNat - 48)) 0
      let i : Int := if p.fst then -(v : Int) else (v : Int)
      if -(2 ^ 63) ≤ i ∧ i < 2 ^ 63 then some i else none

/-- Modelled from the spec: `NewExponentialBackoffPolicy` is referenced by
`NewRetryAfter` and by the tests but its definition is not among the
sources.  Per the spec ("internal exponential backoff (seeded, doubling
per 429 seen)") and the test `TestNewExponentialBackofferPolicy`, each
backoffer starts from the seed and doubles on every `Backoff` call: the
k-th call (0-based) returns `seed * 2^k`. -/
def exponentialBackoff (seed : Int) (calls : Nat) : Int :=
  seed * 2 ^ calls

/-- Outcome of the `RetryAfter` loop: the returned pair (`none` while the
loop is still running when the fuel runs out), the number of wrapped
invocations, and the backoff waits performed, in order. -/
structure RetryAfterOut where
  result : Option RTResult
  invocations : Nat
  waits : List Int
deriving DecidableEq, Repr

/-- The `RetryAfter.RoundTrip` loop.  `boCalls` is the number of `Backoff`
calls made on the per-call exponential backoffer, `retryAfter` the pending
wait (nanoseconds), `n` the wrapped invocations so far and `acc` the waits
performed so far (reversed).  A transport that returns `(nil, nil)` would
make the Go code dereference a nil response; no theorem exercises that
stream, and the model returns the pair unchanged there. -/
def retryAfterLoop (fuel : Nat) (T : Nat → RTResult) (ctxDone : Nat → Bool)
    (ctxErr : GoErr) (seed : Int) (boCalls : Nat) (retryAfter : Int)
    (n : Nat) (acc : List Int) : RetryAfterOut :=
  match fuel with
  | 0 => ⟨none, n, acc.reverse⟩
  | fuel + 1 =>
    if 0 < retryAfter ∧ ctxDone n = true then
      ⟨some ⟨none, some ctxErr⟩, n, acc.reverse⟩
    else
      let acc' := if 0 < retryAfter then retryAfter :: acc else acc
      let res := T n
      match res.err, res.resp with
      | some _, _ => ⟨some res, n + 1, acc'.reverse⟩
      | none, none => ⟨some res, n + 1, acc'.reverse⟩
      | none, some resp =>
        if resp.statusCode ≠ 429 then ⟨some res, n + 1, acc'.reverse⟩
        else
          let hv := headerGet resp.headers "Retry-After"
          if hv = "" then
            retryAfterLoop fuel T ctxDone ctxErr seed (boCalls + 1)
              (exponentialBackoff seed boCalls) (n + 1) acc'
          else
            match goAtoi hv with
            | none => ⟨some res, n + 1, acc'.reverse⟩
            | some v =>
              retryAfterLoop fuel T ctxDone ctxErr seed boCalls
                (v * 1000000) (n + 1) acc'

/-- `RetryAfter.RoundTrip` from a fresh state (`NewRetryAfter` seeds the
exponential backoff policy with 20ms). -/
def retryAfterRoundTrip (fuel : Nat) (T : Nat → RTResult)
    (ctxDone : Nat → Bool) (ctxErr : GoErr) (seed : Int) : RetryAfterOut :=
  retryAfterLoop fuel T ctxDone ctxErr seed 0 0 0 []

/-! ## `Hedger.RoundTrip` (`hedger.go`)

The outer loop is a `select` over three channels: an arriving attempt
result, the outer context's `Done`, and the hedge-pacing timer (which
launches one more concurrent attempt).  The scheduler's choice of which
ready case fires at each iteration is an oracle `events`. -/

/-- Which `select` case fires at one iteration of the `Hedger.RoundTrip`
loop. -/
inductive HedgeEvent where
  | result (r : RTResult)
  | ctxDone
  | timer
deriving DecidableEq, Repr

/-- The `Hedger.RoundTrip` select loop: returns the delivered pair and the
total number of attempts launched, or `none` if the fuel runs out while
the race is still undecided.  `launched` counts attempts started so far. -/
def hedgerLoop (fuel : Nat) (events : Nat → HedgeEvent) (ctxErr : GoErr)
    (k : Nat) (launched : Nat) : Option (RTResult × Nat) :=
  match fuel with
  | 0 => none
  | fuel + 1 =>
    match events k with
    | HedgeEvent.result r => some (r, launched)
    | HedgeEvent.ctxDone => some (⟨none, some ctxErr⟩, launched)
    | HedgeEvent.timer => hedgerLoop fuel events ctxErr (k + 1) (launched + 1)

/-- `Hedger.RoundTrip`: one attempt is launched before the loop starts. -/
def hedgerRoundTrip (fuel : Nat) (events : Nat → HedgeEvent)
    (ctxErr : GoErr) : Option (RTResult × Nat) :=
  hedgerLoop fuel events ctxErr 0 1

/-! ## Jittered backoff (`retry.go`)

`float64` arithmetic is modelled exactly over `ℚ`; Go's
`time.Duration(f)` conversion truncates the float toward zero. -/

/-- Go `time.Duration(f)` for a `float64` value `f`: truncation toward
zero. -/
def goDuration (q : ℚ) : Int :=
  if 0 ≤ q then ⌊q⌋ else -⌊-q⌋

/-- `calculateJitteredBackoff`: the two `random()` draws are passed in
call order (`r1` sizes the jitter, `r2` picks its sign). -/
def calculateJitteredBackoff (original : Int) (percentage : ℚ)
    (r1 r2 : ℚ) : Int :=
  let jitterWindow := goDuration (percentage * (original : ℚ))
  let jitter := goDuration (r1 * (jitterWindow : ℚ))
  let signed := if (1 : ℚ) / 2 < r2 then -jitter else jitter
  original + signed

/-- `PercentJitteredBackoffer.Backoff`: jitter applied to the wrapped
backoffer's value. -/
def percentJitteredBackoff
    (wrapped : Request → Option Response → Option GoErr → Int)
    (jitterPercent : ℚ) (r1 r2 : ℚ)
    (req : Request) (resp : Option Response) (e : Option GoErr) : Int :=
  calculateJitteredBackoff (wrapped req resp e) jitterPercent r1 r2

/-- `FixedBackoffer.Backoff`. -/
def fixedBackoff (wait : Int) (_ : Request) (_ : Option Response)
    (_ : Option GoErr) : Int :=
  wait

/-! ## `Recycler` (pooled-transport lifecycle)

The factory is modelled as a counter handing out fresh instance
identifiers: `wrapped` is the live instance's identifier and `nextId` the
one the next factory call will produce.  The drained external signal
channels are summarized by `signalPending` (whether the internal
rendezvous `signal` channel has a sender ready, which is what the
non-blocking `select` in `getTransport` observes). -/

/-- The `Recycler` state: live instance, TTL configuration and deadline,
usage counter and ceiling, pending-signal flag, and the factory counter. -/
structure Recycler where
  wrapped : Nat
  ttl : Int
  ttlJitter : Int
  nextTTL : Int
  maxUsage : Int
  currentUsage : Int
  signalPending : Bool
  nextId : Nat
deriving DecidableEq, Repr

/-- `Recycler.resetTransport`: invoke the factory, zero the usage counter,
and recompute the TTL deadline as `now + ttl ± trunc(r1·ttlJitter)` with
the sign drawn from `r2` (`rand.Float64()*100 > 50`). -/
def resetTransport (c : Recycler) (now : Int) (r1 r2 : ℚ) : Nat × Recycler :=
  let renderedJitter := goDuration (r1 * (c.ttlJitter : ℚ))
  let signed := if (50 : ℚ) < r2 * 100 then -renderedJitter else renderedJitter
  (c.nextId,
   { c with wrapped := c.nextId, nextId := c.nextId + 1, currentUsage := 0,
            nextTTL := now + c.ttl + signed })

/-- `Recycler.getTransport` at wall-clock `now`: bump the usage counter
when a ceiling is configured and swap if it is exceeded; else swap when a
positive TTL has passed its deadline (`time.Now().After(nextTTL)`); else
swap when the signal channel has a value ready (consuming it); else keep
the live instance. -/
def getTransport (c : Recycler) (now : Int) (r1 r2 : ℚ) : Nat × Recycler :=
  let c1 := if 0 < c.maxUsage then { c with currentUsage := c.currentUsage + 1 } else c
  if 0 < c.maxUsage ∧ c.maxUsage < c1.currentUsage then
    resetTransport c1 now r1 r2
  else if 0 < c.ttl ∧ c.nextTTL < now then
    resetTransport c1 now r1 r2
  else if c.signalPending then
    resetTransport { c1 with signalPending := false } now r1 r2
  else (c1.wrapped, c1)

/-! ## `Rotator` (`rotate.go`)

Instances are identified by the order the factory produced them, so a
rotator built from a fresh factory holds `instances = [0, 1, ..., N-1]`. -/

/-- The `Rotator` state. -/
structure Rotator where
  numberOfInstances : Int
  currentOffset : Int
  instances : List Nat
deriving DecidableEq, Repr

/-- `NewRotator` with `configured` requested instances: the construction
loop runs while `x < configured`, then the defensive branch tops the pool
up to one instance when it is empty. -/
def NewRotator (configured : Int) : Rotator :=
  let insts := List.range configured.toNat
  if insts.length < 1 then ⟨1, 0, [0]⟩
  else ⟨configured, 0, insts⟩

/-- One `Rotator.RoundTrip`: advance the shared offset modulo the instance
count under the lock, then delegate to the selected instance. -/
def rotatorStep (r : Rotator) : Nat × Rotator :=
  let off := (r.currentOffset + 1) % r.numberOfInstances
  (r.instances.getD off.toNat 0, { r with currentOffset := off })

/-- `m` successive `RoundTrip` calls: the instances they delegate to, in
order, and the final rotator state. -/
def rotatorRun : Rotator → Nat → List Nat × Rotator
  | r, 0 => ([], r)
  | r, m + 1 =>
    let (i, r') := rotatorStep r
    let (is, r'') := rotatorRun r' m
    (i :: is, r'')

/-! ## Policy factories and instance identity (`retry.go`)

To reason about which policy *instances* (Go pointers) distinct outer
`RoundTrip` calls receive, allocations are modelled by a counter: every
`new`/`&` allocation hands out the next identifier.  `NewStatusCodeRetryPolicy`,
`NewTimeoutRetryPolicy` and `NewFixedBackoffPolicy` allocate ONE instance
when the policy is constructed and their factory closures return that
same instance on every call; `NewLimitedRetryPolicy`'s closure calls its
wrapped factories and then allocates a fresh `LimitedRetrier` on every
call. -/

/-- A retrier instance: its allocation identity plus its behaviour. -/
structure AllocRetrier where
  instId : Nat
  spec : Retrier

/-- A `RetryPolicy` value: a closure from the allocation state to an
instance and the new allocation state. -/
structure RetryPolicyA where
  call : Nat → AllocRetrier × Nat

/-- A `BackoffPolicy` value producing a fixed-wait backoffer instance. -/
structure BackoffPolicyA where
  call : Nat → (Nat × Int) × Nat

/-- `NewStatusCodeRetryPolicy`: allocates one `StatusCodeRetrier` at
construction; the factory always returns it. -/
def NewStatusCodeRetryPolicyA (codes : List Int) (a : Nat) : RetryPolicyA × Nat :=
  (⟨fun s => (⟨a, Retrier.statusCode codes⟩, s)⟩, a + 1)

/-- `NewTimeoutRetryPolicy`: allocates one `TimeoutRetrier` at
construction; the factory always returns it. -/
def NewTimeoutRetryPolicyA (t : Int) (a : Nat) : RetryPolicyA × Nat :=
  (⟨fun s => (⟨a, Retrier.timeout t⟩, s)⟩, a + 1)

/-- `NewFixedBackoffPolicy`: allocates one `FixedBackoffer` at
construction; the factory always returns it. -/
def NewFixedBackoffPolicyA (wait : Int) (a : Nat) : BackoffPolicyA × Nat :=
  (⟨fun s => ((a, wait), s)⟩, a + 1)

/-- Invoke each factory of a list in order, threading the allocation
state (the instantiation loop at the head of `Retry.RoundTrip`, and the
loop inside `NewLimitedRetryPolicy`'s closure). -/
def callPolicies : List RetryPolicyA → Nat → List AllocRetrier × Nat
  | [], s => ([], s)
  | p :: ps, s =>
    let (r, s') := p.call s
    let (rs, s'') := callPolicies ps s'
    (r :: rs, s'')

/-- `NewLimitedRetryPolicy`: the factory closure instantiates the wrapped
policies and then allocates a fresh `LimitedRetrier` (attempts = 0) on
every call. -/
def NewLimitedRetryPolicyA (limit : Int) (pols : List RetryPolicyA) (a : Nat) :
    RetryPolicyA × Nat :=
  (⟨fun s =>
      let (subs, s') := callPolicies pols s
      (⟨s', Retrier.limited limit 0 (subs.map AllocRetrier.spec)⟩, s' + 1)⟩, a)

/-- A policy whose factory never rewinds the allocation counter.  All
policies built by the constructors above satisfy it. -/
def PolicyMono (p : RetryPolicyA) : Prop :=
  ∀ s, s ≤ (p.call s).2

/-! ## Lemmas about the retrier combinators -/

lemma stateless_retry_snd {r : Retrier} (h : r.stateless)
    (req : Request) (resp : Option Response) (e : Option GoErr) :
    (r.retry req resp e).2 = r := by
  cases r with
  | statusCode codes => simp [Retrier.retry]
  | timeout t => simp [Retrier.retry]
  | limited l a rs => exact absurd h (by simp [Retrier.stateless])

lemma retryList_stateless : ∀ (rs : List Retrier), (∀ s ∈ rs, s.stateless) →
    ∀ (req : Request) (resp : Option Response) (e : Option GoErr),
      (Retrier.retryList rs req resp e).2 = rs
  | [], _, req, resp, e => by simp [Retrier.retryList]
  | r :: rs, h, req, resp, e => by
    have hr : (Retrier.retry r req resp e).2 = r :=
      stateless_retry_snd (h r (by simp)) req resp e
    have ih := retryList_stateless rs (fun s hs => h s (by simp [hs])) req resp e
    simp only [Retrier.retryList]
    rcases hb : Retrier.retry r req resp e with ⟨b, r'⟩
    have hr' : r' = r := by simpa [hb] using hr
    rcases hl : Retrier.retryList rs req resp e with ⟨b', rs'⟩
    have hrs' : rs' = rs := by simpa [hl] using ih
    cases b <;> simp [hb, hl, hr', hrs']

lemma retryList_true_iff : ∀ (rs : List Retrier) (req : Request)
    (resp : Option Response) (e : Option GoErr),
    (Retrier.retryList rs req resp e).1 = true
      ↔ ∃ s ∈ rs, (s.retry req resp e).1 = true
  | [], req, resp, e => by simp [Retrier.retryList]
  | r :: rs, req, resp, e => by
    have ih := retryList_true_iff rs req resp e
    simp only [Retrier.retryList]
    rcases hb : Retrier.retry r req resp e with ⟨b, r'⟩
    rcases hl : Retrier.retryList rs req resp e with ⟨b', rs'⟩
    have hb1 : (Retrier.retry r req resp e).1 = b := by rw [hb]
    rw [hl] at ih
    dsimp only at ih ⊢
    cases b with
    | true =>
      simp only [if_pos rfl]
      exact ⟨fun _ => ⟨r, by simp, by rw [hb]⟩, fun _ => rfl⟩
    | false =>
      simp only [Bool.false_eq_true, if_false, List.mem_cons]
      constructor
      · intro hb'
        rcases ih.mp hb' with ⟨s, hs, hv⟩
        exact ⟨s, Or.inr hs, hv⟩
      · rintro ⟨s, hs | hs, hv⟩
        · rw [hs, hb1] at hv
          exact absurd hv (by simp)
        · exact ih.mpr ⟨s, hs, hv⟩

lemma retryLoop_limited_exhausted (fuel : Nat) (hfuel : 1 ≤ fuel)
    (T : Nat → RTResult) (ctx : Nat → Bool) (cerr : GoErr) (req : Request)
    (L a : Int) (ha : L ≤ a) (subs : List Retrier) (n : Nat) (cur : RTResult) :
    retryLoop fuel T ctx cerr req [Retrier.limited L a subs] n cur
      = (cur, n, [Retrier.limited L a subs]) := by
  rcases fuel with _ | f
  · omega
  · simp [retryLoop, Retrier.retryList, Retrier.retry, not_lt.mpr ha, ha]


lemma retryList_singleton_limited (L a : Int) (subs : List Retrier)
    (req : Request) (resp : Option Response) (e : Option GoErr)
    (haL : a < L)
    (hsub : Retrier.retryList subs req resp e = (true, subs)) :
    Retrier.retryList [Retrier.limited L a subs] req resp e
      = (true, [Retrier.limited L (a + 1) subs]) := by
  simp only [Retrier.retryList, Retrier.retry, if_neg (not_le.mpr haL), hsub]
  simp

lemma retryLoop_limited_step (f : Nat) (T : Nat → RTResult) (ctx : Nat → Bool)
    (cerr : GoErr) (req : Request) (L a : Int) (subs : List Retrier)
    (n : Nat) (cur : RTResult)
    (haL : a < L)
    (hsub : Retrier.retryList subs req cur.resp cur.err = (true, subs))
    (hctx : ctx n = false) :
    retryLoop (f + 1) T ctx cerr req [Retrier.limited L a subs] n cur
      = retryLoop f T ctx cerr req [Retrier.limited L (a + 1) subs] (n + 1) (T n) := by
  simp only [retryLoop, retryList_singleton_limited L a subs req cur.resp cur.err haL hsub, hctx]
  simp

lemma retryLoop_limited_run (subs : List Retrier)
    (hst : ∀ s ∈ subs, s.stateless)
    (T : Nat → RTResult) (cerr : GoErr) (req : Request)
    (hvote : ∀ k, (Retrier.retryList subs req (T k).resp (T k).err).1 = true) :
    ∀ (d : Nat) (L a : Int) (n : Nat) (cur : RTResult) (fuel : Nat),
      a + (d + 1 : Nat) = L →
      (Retrier.retryList subs req cur.resp cur.err).1 = true →
      d + 2 ≤ fuel →
      retryLoop fuel T (fun _ => false) cerr req [Retrier.limited L a subs] n cur
        = (T (n + d), n + d + 1, [Retrier.limited L L subs]) := by
  intro d
  induction d with
  | zero =>
    intro L a n cur fuel ha hcur hfuel
    rcases fuel with _ | f
    · omega
    have hsub : Retrier.retryList subs req cur.resp cur.err = (true, subs) :=
      Prod.ext hcur (retryList_stateless subs hst req cur.resp cur.err)
    rw [retryLoop_limited_step f T _ cerr req L a subs n cur (by omega) hsub rfl,
      retryLoop_limited_exhausted f (by omega) T _ cerr req L (a + 1) (by omega) subs
        (n + 1) (T n)]
    have hL : a + 1 = L := by push_cast at ha; omega
    rw [hL]
    simp
  | succ d ih =>
    intro L a n cur fuel ha hcur hfuel
    rcases fuel with _ | f
    · omega
    have hsub : Retrier.retryList subs req cur.resp cur.err = (true, subs) :=
      Prod.ext hcur (retryList_stateless subs hst req cur.resp cur.err)
    rw [retryLoop_limited_step f T _ cerr req L a subs n cur (by push_cast at ha; omega) hsub rfl,
      ih L (a + 1) (n + 1) (T n) f (by push_cast at ha ⊢; omega) (hvote n) (by omega)]
    have h1 : n + 1 + d = n + (d + 1) := by omega
    rw [h1]

/-- C1: with a bounding retry policy of limit `N` whose stateless wrapped
retriers all vote to retry on every result the transport produces,
`Retry.RoundTrip` invokes the wrapped transport exactly `N + 1` times and
returns the last observed result; and in general `LimitedRetrier.Retry`
returns `true` exactly when its attempt count is still below the ceiling
and at least one wrapped retrier votes `true`. -/
theorem C1_retry_bound_and_limited_gate
    (N : Nat) (subs : List Retrier) (T : Nat → RTResult) (req : Request)
    (cerr : GoErr)
    (hne : subs ≠ [])
    (hst : ∀ s ∈ subs, s.stateless)
    (hvote : ∀ k, ∀ s ∈ subs, (s.retry req (T k).resp (T k).err).1 = true) :
    ((retryRoundTrip (N + 1) T (fun _ => false) cerr req
        [Retrier.limited (N : Int) 0 subs]).2.1 = N + 1
     ∧ (retryRoundTrip (N + 1) T (fun _ => false) cerr req
        [Retrier.limited (N : Int) 0 subs]).1 = T N)
    ∧ (∀ (limit attempts : Int) (rs : List Retrier) (resp : Option Response)
         (e : Option GoErr),
        ((Retrier.limited limit attempts rs).retry req resp e).1 = true
          ↔ attempts < limit ∧ ∃ s ∈ rs, (s.retry req resp e).1 = true) := by
  have hvoteL : ∀ k, (Retrier.retryList subs req (T k).resp (T k).err).1 = true := by
    intro k
    rcases subs with _ | ⟨s, ss⟩
    · exact absurd rfl hne
    · exact (retryList_true_iff _ req _ _).mpr ⟨s, by simp, hvote k s (by simp)⟩
  constructor
  · rcases N with _ | M
    · rw [retryRoundTrip,
        retryLoop_limited_exhausted (0 + 1) (by omega) T _ cerr req (((0 : Nat)) : Int) 0
          (by simp) subs 1 (T 0)]
      exact ⟨rfl, rfl⟩
    · rw [retryRoundTrip,
        retryLoop_limited_run subs hst T cerr req hvoteL M (((M + 1 : Nat)) : Int) 0 1 (T 0)
          (M + 1 + 1) (by push_cast; ring) (hvoteL 0) (by omega)]
      constructor
      · show 1 + M + 1 = M + 1 + 1
        omega
      · show T (1 + M) = T (M + 1)
        rw [Nat.add_comm]
  · intro limit attempts rs resp e
    by_cases hlim : attempts ≥ limit
    · simp only [Retrier.retry, if_pos hlim]
      constructor
      · intro h; exact absurd h (by simp)
      · intro h; omega
    · simp only [Retrier.retry, if_neg hlim]
      rcases hsub : Retrier.retryList rs req resp e with ⟨b, rs'⟩
      have hiff := retryList_true_iff rs req resp e
      rw [hsub] at hiff
      dsimp only at hiff ⊢
      rw [← hiff]
      constructor
      · intro h; exact ⟨by omega, h⟩
      · intro h; exact h.2

/-- Witness for C1 at `N = 2` with a single always-matching status-code
retrier: four invocations total and the last result returned. -/
theorem C1_witness :
    ([Retrier.statusCode [500]] ≠ ([] : List Retrier))
    ∧ (retryRoundTrip 3 (fun _ => ⟨some ⟨500, []⟩, none⟩) (fun _ => false)
        GoErr.canceled ⟨0⟩ [Retrier.limited 2 0 [Retrier.statusCode [500]]]).2.1 = 3
    ∧ (retryRoundTrip 3 (fun _ => ⟨some ⟨500, []⟩, none⟩) (fun _ => false)
        GoErr.canceled ⟨0⟩ [Retrier.limited 2 0 [Retrier.statusCode [500]]]).1
        = ⟨some ⟨500, []⟩, none⟩ := by
  have h := C1_retry_bound_and_limited_gate 2 [Retrier.statusCode [500]]
    (fun _ => ⟨some ⟨500, []⟩, none⟩) ⟨0⟩ GoErr.canceled
    (by simp)
    (by intro s hs; simp at hs; subst hs; trivial)
    (by intro k s hs; simp at hs; subst hs; rfl)
  exact ⟨by simp, h.1.1, h.1.2⟩

/-- C10: `StatusCodeRetrier.Retry` votes `false` whenever the response is
nil, so a transport-level error that produces no response is not retried
by a status-code policy alone and `Retry.RoundTrip` returns the error
unchanged after a single invocation. -/
theorem C10_statuscode_nil_response_no_retry
    (codes : List Int) (req : Request) (e : GoErr) (T : Nat → RTResult)
    (ctx : Nat → Bool) (cerr : GoErr) (fuel : Nat)
    (hfuel : 1 ≤ fuel) (hT : T 0 = ⟨none, some e⟩) :
    (∀ err : Option GoErr,
      ((Retrier.statusCode codes).retry req none err).1 = false)
    ∧ retryRoundTrip fuel T ctx cerr req [Retrier.statusCode codes]
        = (⟨none, some e⟩, 1, [Retrier.statusCode codes]) := by
  have hfalse : ∀ err : Option GoErr,
      ((Retrier.statusCode codes).retry req none err).1 = false := by
    intro err
    simp [Retrier.retry, Retrier.statusCodeRetry]
  refine ⟨hfalse, ?_⟩
  rcases fuel with _ | f
  · omega
  rw [retryRoundTrip]
  have hlist : Retrier.retryList [Retrier.statusCode codes] req
      (T 0).resp (T 0).err = (false, [Retrier.statusCode codes]) := by
    rw [hT]
    simp only [Retrier.retryList]
    rcases hb : Retrier.retry (Retrier.statusCode codes) req none (some e) with ⟨b, r'⟩
    have hb0 : b = false := by
      have := hfalse (some e); rw [hb] at this; exact this
    have hr' : r' = Retrier.statusCode codes := by
      have := stateless_retry_snd (r := Retrier.statusCode codes) trivial req none (some e)
      rw [hb] at this; exact this
    subst hb0 hr'
    simp [Retrier.retryList]
  simp only [retryLoop, hlist]
  simp [hT]

/-- Witness for C10: a transport failing with an I/O error and no
response, under a status-code policy for 500/503, is returned unchanged
after one invocation. -/
theorem C10_witness :
    (1 : Nat) ≤ 1
    ∧ ((Retrier.statusCode [500, 503]).retry ⟨0⟩ none (some (GoErr.ioError 7))).1 = false
    ∧ retryRoundTrip 1 (fun _ => ⟨none, some (GoErr.ioError 7)⟩) (fun _ => false)
        GoErr.canceled ⟨0⟩ [Retrier.statusCode [500, 503]]
        = (⟨none, some (GoErr.ioError 7)⟩, 1, [Retrier.statusCode [500, 503]]) := by
  have h := C10_statuscode_nil_response_no_retry [500, 503] ⟨0⟩ (GoErr.ioError 7)
    (fun _ => ⟨none, some (GoErr.ioError 7)⟩) (fun _ => false) GoErr.canceled 1
    (by decide) rfl
  exact ⟨by decide, h.1 (some (GoErr.ioError 7)), h.2⟩

lemma hedgerLoop_cancel :
    ∀ (k fuel j launched : Nat) (events : Nat → HedgeEvent) (cerr : GoErr),
      (∀ i < k, events (j + i) = HedgeEvent.timer) →
      events (j + k) = HedgeEvent.ctxDone →
      k + 1 ≤ fuel →
      hedgerLoop fuel events cerr j launched
        = some (⟨none, some cerr⟩, launched + k) := by
  intro k
  induction k with
  | zero =>
    intro fuel j launched events cerr htimer hdone hfuel
    rcases fuel with _ | f
    · omega
    simp only [hedgerLoop]
    rw [show j + 0 = j from rfl] at hdone
    rw [hdone]
    simp
  | succ k ih =>
    intro fuel j launched events cerr htimer hdone hfuel
    rcases fuel with _ | f
    · omega
    simp only [hedgerLoop]
    have h0 : events j = HedgeEvent.timer := by
      have := htimer 0 (by omega); simpa using this
    rw [h0]
    have := ih f (j + 1) (launched + 1) events cerr
      (fun i hi => by
        have := htimer (i + 1) (by omega)
        rw [show j + 1 + i = j + (i + 1) by omega]
        exact this)
      (by rw [show j + 1 + k = j + (k + 1) by omega]; exact hdone)
      (by omega)
    rw [this, show launched + 1 + k = launched + (k + 1) from by omega]

/-- C2: when the outer context fires during a wait, its error wins.  For
`Retry.RoundTrip`: if the policies vote to retry but the context's `Done`
fires during the backoff wait, the loop returns `(nil, ctxErr)` without a
further invocation.  For `RetryAfter.RoundTrip`: if a wait is pending and
the context fires, the loop returns `(nil, ctxErr)` without a further
invocation.  For `Hedger.RoundTrip`: if the context fires after `k` hedge
timer ticks and before any attempt completes, the loop returns
`(nil, ctxErr)`, no attempt beyond the `1 + k` already launched being
scheduled. -/
theorem C2_cancellation_wins :
    (∀ (fuel : Nat) (T : Nat → RTResult) (ctx : Nat → Bool) (cerr : GoErr)
       (req : Request) (rs : List Retrier) (n : Nat) (cur : RTResult),
       1 ≤ fuel →
       (Retrier.retryList rs req cur.resp cur.err).1 = true →
       ctx n = true →
       (retryLoop fuel T ctx cerr req rs n cur).1 = ⟨none, some cerr⟩
       ∧ (retryLoop fuel T ctx cerr req rs n cur).2.1 = n)
    ∧ (∀ (fuel : Nat) (T : Nat → RTResult) (ctx : Nat → Bool) (cerr : GoErr)
       (seed : Int) (b : Nat) (ra : Int) (n : Nat) (acc : List Int),
       1 ≤ fuel → 0 < ra → ctx n = true →
       retryAfterLoop fuel T ctx cerr seed b ra n acc
         = ⟨some ⟨none, some cerr⟩, n, acc.reverse⟩)
    ∧ (∀ (fuel k : Nat) (events : Nat → HedgeEvent) (cerr : GoErr),
       (∀ j < k, events j = HedgeEvent.timer) →
       events k = HedgeEvent.ctxDone →
       k + 1 ≤ fuel →
       hedgerRoundTrip fuel events cerr = some (⟨none, some cerr⟩, 1 + k)) := by
  refine ⟨?retry, ?retryAfter, ?hedger⟩
  · intro fuel T ctx cerr req rs n cur hfuel hvote hctx
    rcases fuel with _ | f
    · omega
    rcases hsub : Retrier.retryList rs req cur.resp cur.err with ⟨b, rs'⟩
    have hb : b = true := by
      have := hvote; rw [hsub] at this; exact this
    subst hb
    simp [retryLoop, hsub, hctx]
  · intro fuel T ctx cerr seed b ra n acc hfuel hra hctx
    rcases fuel with _ | f
    · omega
    simp [retryAfterLoop, hra, hctx]
  · intro fuel k events cerr htimer hdone hfuel
    rw [hedgerRoundTrip,
      hedgerLoop_cancel k fuel 0 1 events cerr
        (fun i hi => by rw [show (0 : Nat) + i = i from by omega]; exact htimer i hi)
        (by rw [show (0 : Nat) + k = k from by omega]; exact hdone) hfuel]

/-- Witness for C2: each of the three decorators at a concrete
cancellation scenario. -/
theorem C2_witness :
    ((Retrier.retryList [Retrier.statusCode [500]] ⟨0⟩
        (RTResult.mk (some ⟨500, []⟩) none).resp
        (RTResult.mk (some ⟨500, []⟩) none).err).1 = true
      ∧ (retryLoop 1 (fun _ => ⟨some ⟨500, []⟩, none⟩) (fun _ => true)
          GoErr.deadlineExceeded ⟨0⟩ [Retrier.statusCode [500]] 1
          ⟨some ⟨500, []⟩, none⟩).1 = ⟨none, some GoErr.deadlineExceeded⟩)
    ∧ retryAfterLoop 1 (fun _ => ⟨some ⟨429, []⟩, none⟩) (fun _ => true)
        GoErr.canceled 20 0 5 2 [3]
        = ⟨some ⟨none, some GoErr.canceled⟩, 2, [3]⟩
    ∧ hedgerRoundTrip 2
        (fun j => if j = 0 then HedgeEvent.timer else HedgeEvent.ctxDone)
        GoErr.canceled = some (⟨none, some GoErr.canceled⟩, 2) := by
  have h := C2_cancellation_wins
  refine ⟨⟨by decide, ?_⟩, ?_, ?_⟩
  · exact (h.1 1 (fun _ => ⟨some ⟨500, []⟩, none⟩) (fun _ => true)
      GoErr.deadlineExceeded ⟨0⟩ [Retrier.statusCode [500]] 1
      ⟨some ⟨500, []⟩, none⟩ (by decide) (by decide) rfl).1
  · have := h.2.1 1 (fun _ => ⟨some ⟨429, []⟩, none⟩) (fun _ => true)
      GoErr.canceled 20 0 5 2 [3] (by decide) (by decide) rfl
    simpa using this
  · have := h.2.2 2 1
      (fun j => if j = 0 then HedgeEvent.timer else HedgeEvent.ctxDone)
      GoErr.canceled (by decide) (by decide) (by decide)
    simpa using this

lemma retryAfterLoop_invocations_ge :
    ∀ (fuel : Nat) (T : Nat → RTResult) (ctx : Nat → Bool) (cerr : GoErr)
      (seed : Int) (b : Nat) (ra : Int) (n : Nat) (acc : List Int),
      n ≤ (retryAfterLoop fuel T ctx cerr seed b ra n acc).invocations := by
  intro fuel
  induction fuel with
  | zero => intro T ctx cerr seed b ra n acc; simp [retryAfterLoop]
  | succ f ih =>
    intro T ctx cerr seed b ra n acc
    simp only [retryAfterLoop]
    split
    · simp
    · split
      · simp
      · simp
      · split
        · simp
        · split
          · exact le_trans (by omega) (ih ..)
          · split
            · simp
            · exact le_trans (by omega) (ih ..)

lemma retryAfterLoop_waits_prefix :
    ∀ (fuel : Nat) (T : Nat → RTResult) (ctx : Nat → Bool) (cerr : GoErr)
      (seed : Int) (b : Nat) (ra : Int) (n : Nat) (acc : List Int),
      ∃ tail, (retryAfterLoop fuel T ctx cerr seed b ra n acc).waits
        = acc.reverse ++ tail := by
  intro fuel
  induction fuel with
  | zero => intro T ctx cerr seed b ra n acc; exact ⟨[], by simp [retryAfterLoop]⟩
  | succ f ih =>
    intro T ctx cerr seed b ra n acc
    simp only [retryAfterLoop]
    split
    · exact ⟨[], by simp⟩
    · rename_i hgate
      by_cases hra : 0 < ra
      · have hacc : (if 0 < ra then ra :: acc else acc) = ra :: acc := if_pos hra
        rw [hacc]
        split
        · exact ⟨[ra], by simp⟩
        · exact ⟨[ra], by simp⟩
        · split
          · exact ⟨[ra], by simp⟩
          · split
            · rcases ih T ctx cerr seed (b + 1) (exponentialBackoff seed b) (n + 1) (ra :: acc)
                with ⟨tail, htail⟩
              exact ⟨ra :: tail, by rw [htail]; simp⟩
            · split
              · exact ⟨[ra], by simp⟩
              · rename_i v _
                rcases ih T ctx cerr seed b (v * 1000000) (n + 1) (ra :: acc)
                  with ⟨tail, htail⟩
                exact ⟨ra :: tail, by rw [htail]; simp⟩
      · have hacc : (if 0 < ra then ra :: acc else acc) = acc := if_neg hra
        rw [hacc]
        split
        · exact ⟨[], by simp⟩
        · exact ⟨[], by simp⟩
        · split
          · exact ⟨[], by simp⟩
          · split
            · exact ih ..
            · split
              · exact ⟨[], by simp⟩
              · exact ih ..

lemma retryAfterLoop_wait_step (fuel : Nat) (T : Nat → RTResult)
    (ctx : Nat → Bool) (cerr : GoErr) (seed : Int) (b : Nat) (ra : Int)
    (n : Nat) (acc : List Int)
    (hfuel : 1 ≤ fuel) (hra : 0 < ra) (hctx : ctx n = false) :
    n + 1 ≤ (retryAfterLoop fuel T ctx cerr seed b ra n acc).invocations
    ∧ ∃ tail, (retryAfterLoop fuel T ctx cerr seed b ra n acc).waits
        = acc.reverse ++ ra :: tail := by
  rcases fuel with _ | f
  · omega
  have hgate : ¬ (0 < ra ∧ ctx n = true) := by simp [hctx]
  simp only [retryAfterLoop, if_neg hgate, if_pos hra]
  split
  · exact ⟨by simp, ⟨[], by simp⟩⟩
  · exact ⟨by simp, ⟨[], by simp⟩⟩
  · split
    · exact ⟨by simp, ⟨[], by simp⟩⟩
    · split
      · constructor
        · exact le_trans (by omega)
            (retryAfterLoop_invocations_ge f T ctx cerr seed (b + 1)
              (exponentialBackoff seed b) (n + 1) (ra :: acc))
        · rcases retryAfterLoop_waits_prefix f T ctx cerr seed (b + 1)
            (exponentialBackoff seed b) (n + 1) (ra :: acc) with ⟨tail, htail⟩
          exact ⟨tail, by rw [htail]; simp⟩
      · split
        · exact ⟨by simp, ⟨[], by simp⟩⟩
        · rename_i v _
          constructor
          · exact le_trans (by omega)
              (retryAfterLoop_invocations_ge f T ctx cerr seed b
                (v * 1000000) (n + 1) (ra :: acc))
          · rcases retryAfterLoop_waits_prefix f T ctx cerr seed b
              (v * 1000000) (n + 1) (ra :: acc) with ⟨tail, htail⟩
            exact ⟨tail, by rw [htail]; simp⟩

/-- C3: on a 429 whose `Retry-After` header is absent (and no
cancellation), the `RetryAfter` loop does not return that response but
continues with the doubled backoff state: the returned outcome is that of
the continuation, at least one further attempt is issued, and the next
recorded wait is exactly the exponential backoff value `seed * 2^b`. -/
theorem C3_retryafter_absent_header_exponential
    (fuel : Nat) (T : Nat → RTResult) (ctx : Nat → Bool) (cerr : GoErr)
    (seed : Int) (b : Nat) (ra : Int) (n : Nat) (acc : List Int)
    (resp : Response)
    (hT : T n = ⟨some resp, none⟩) (h429 : resp.statusCode = 429)
    (hhdr : headerGet resp.headers "Retry-After" = "")
    (hctx : ctx n = false) (hctx2 : ctx (n + 1) = false)
    (hseed : 0 < seed) (hfuel : 2 ≤ fuel) :
    retryAfterLoop fuel T ctx cerr seed b ra n acc
      = retryAfterLoop (fuel - 1) T ctx cerr seed (b + 1)
          (exponentialBackoff seed b) (n + 1)
          (if 0 < ra then ra :: acc else acc)
    ∧ n + 2 ≤ (retryAfterLoop fuel T ctx cerr seed b ra n acc).invocations
    ∧ ∃ tail, (retryAfterLoop fuel T ctx cerr seed b ra n acc).waits
        = (if 0 < ra then ra :: acc else acc).reverse
            ++ exponentialBackoff seed b :: tail := by
  rcases fuel with _ | f
  · omega
  have hgate : ¬ (0 < ra ∧ ctx n = true) := by simp [hctx]
  have hexp : 0 < exponentialBackoff seed b :=
    mul_pos hseed (pow_pos (by norm_num) b)
  have hstep : retryAfterLoop (f + 1) T ctx cerr seed b ra n acc
      = retryAfterLoop f T ctx cerr seed (b + 1)
          (exponentialBackoff seed b) (n + 1)
          (if 0 < ra then ra :: acc else acc) := by
    simp only [retryAfterLoop, if_neg hgate, hT]
    simp [h429, hhdr]
  refine ⟨by simpa using hstep, ?_, ?_⟩
  · rw [hstep]
    exact le_trans (by omega)
      (retryAfterLoop_wait_step f T ctx cerr seed (b + 1)
        (exponentialBackoff seed b) (n + 1) _ (by omega) hexp hctx2).1
  · rw [hstep]
    exact (retryAfterLoop_wait_step f T ctx cerr seed (b + 1)
        (exponentialBackoff seed b) (n + 1) _ (by omega) hexp hctx2).2

/-- Witness for C3: a 429 with no header followed by a 200 makes the loop
wait the seed duration and try again. -/
theorem C3_witness :
    (0 : Int) < 20
    ∧ 0 + 2 ≤ (retryAfterLoop 3
        (fun n => if n = 0 then ⟨some ⟨429, []⟩, none⟩ else ⟨some ⟨200, []⟩, none⟩)
        (fun _ => false) GoErr.canceled 20 0 0 0 []).invocations
    ∧ ∃ tail, (retryAfterLoop 3
        (fun n => if n = 0 then ⟨some ⟨429, []⟩, none⟩ else ⟨some ⟨200, []⟩, none⟩)
        (fun _ => false) GoErr.canceled 20 0 0 0 []).waits
        = ((if (0 : Int) < 0 then [0] else ([] : List Int))).reverse
            ++ exponentialBackoff 20 0 :: tail := by
  have h := C3_retryafter_absent_header_exponential 3
    (fun n => if n = 0 then ⟨some ⟨429, []⟩, none⟩ else ⟨some ⟨200, []⟩, none⟩)
    (fun _ => false) GoErr.canceled 20 0 0 0 [] ⟨429, []⟩
    rfl rfl rfl rfl rfl (by decide) (by decide)
  exact ⟨by decide, h.2.1, by simpa using h.2.2⟩

/-- C4: a 429 whose `Retry-After` header is present but unparseable is
returned as-is with a nil error; any non-429 response or transport error
is returned immediately unchanged. -/
theorem C4_retryafter_terminal_paths :
    (∀ (fuel : Nat) (T : Nat → RTResult) (ctx : Nat → Bool) (cerr : GoErr)
       (seed : Int) (b : Nat) (ra : Int) (n : Nat) (acc : List Int)
       (resp : Response),
      1 ≤ fuel → ¬ (0 < ra ∧ ctx n = true) →
      T n = ⟨some resp, none⟩ → resp.statusCode = 429 →
      headerGet resp.headers "Retry-After" ≠ "" →
      goAtoi (headerGet resp.headers "Retry-After") = none →
      retryAfterLoop fuel T ctx cerr seed b ra n acc
        = ⟨some ⟨some resp, none⟩, n + 1,
           (if 0 < ra then ra :: acc else acc).reverse⟩)
    ∧ (∀ (fuel : Nat) (T : Nat → RTResult) (ctx : Nat → Bool) (cerr : GoErr)
       (seed : Int) (b : Nat) (ra : Int) (n : Nat) (acc : List Int)
       (r : RTResult),
      1 ≤ fuel → ¬ (0 < ra ∧ ctx n = true) →
      T n = r →
      (r.err ≠ none ∨ ∃ resp, r.resp = some resp ∧ resp.statusCode ≠ 429) →
      retryAfterLoop fuel T ctx cerr seed b ra n acc
        = ⟨some r, n + 1, (if 0 < ra then ra :: acc else acc).reverse⟩) := by
  constructor
  · intro fuel T ctx cerr seed b ra n acc resp hfuel hgate hT h429 hhdr hparse
    rcases fuel with _ | f
    · omega
    simp only [retryAfterLoop, if_neg hgate, hT]
    simp [h429, hhdr, hparse, hT]
  · intro fuel T ctx cerr seed b ra n acc r hfuel hgate hT hterm
    rcases fuel with _ | f
    · omega
    simp only [retryAfterLoop, if_neg hgate, hT]
    rcases hterm with herr | ⟨resp, hresp, hcode⟩
    · rcases r with ⟨resp?, err?⟩
      rcases err? with _ | e
      · exact absurd rfl herr
      · simp
    · rcases r with ⟨resp?, err?⟩
      simp only at hresp
      subst hresp
      rcases err? with _ | e
      · simp [hcode]
      · simp

/-- Witness for C4: an unparseable header, a 200 response, and a
transport error, each returned unchanged after one invocation. -/
theorem C4_witness :
    goAtoi "bogus" = none
    ∧ retryAfterLoop 1
        (fun _ => ⟨some ⟨429, [("Retry-After", "bogus")]⟩, none⟩)
        (fun _ => false) GoErr.canceled 20 0 0 0 []
        = ⟨some ⟨some ⟨429, [("Retry-After", "bogus")]⟩, none⟩, 1, []⟩
    ∧ retryAfterLoop 1 (fun _ => ⟨some ⟨200, []⟩, none⟩)
        (fun _ => false) GoErr.canceled 20 0 0 0 []
        = ⟨some ⟨some ⟨200, []⟩, none⟩, 1, []⟩
    ∧ retryAfterLoop 1 (fun _ => ⟨none, some (GoErr.ioError 3)⟩)
        (fun _ => false) GoErr.canceled 20 0 0 0 []
        = ⟨some ⟨none, some (GoErr.ioError 3)⟩, 1, []⟩ := by
  have h1 := C4_retryafter_terminal_paths.1 1
    (fun _ => ⟨some ⟨429, [("Retry-After", "bogus")]⟩, none⟩)
    (fun _ => false) GoErr.canceled 20 0 0 0 [] ⟨429, [("Retry-After", "bogus")]⟩
    (by decide) (by simp) rfl rfl (by decide) (by decide)
  have h2 := C4_retryafter_terminal_paths.2 1
    (fun _ => ⟨some ⟨200, []⟩, none⟩)
    (fun _ => false) GoErr.canceled 20 0 0 0 [] ⟨some ⟨200, []⟩, none⟩
    (by decide) (by simp) rfl (Or.inr ⟨⟨200, []⟩, rfl, by decide⟩)
  have h3 := C4_retryafter_terminal_paths.2 1
    (fun _ => ⟨none, some (GoErr.ioError 3)⟩)
    (fun _ => false) GoErr.canceled 20 0 0 0 [] ⟨none, some (GoErr.ioError 3)⟩
    (by decide) (by simp) rfl (Or.inl (by decide))
  exact ⟨by decide, by simpa using h1, by simpa using h2, by simpa using h3⟩

lemma goDuration_nonneg_bounds (q : ℚ) (hq : 0 ≤ q) :
    0 ≤ goDuration q ∧ (goDuration q : ℚ) ≤ q := by
  rw [goDuration, if_pos hq]
  exact ⟨Int.floor_nonneg.mpr hq, Int.floor_le q⟩

/-- C5: with a positive TTL, no ceiling overrun and no pending signal, a
`getTransport` call at or before the jittered deadline keeps the live
instance, while a call after it swaps in the next factory instance,
resets the usage counter to zero and recomputes the deadline as
`now + ttl ± trunc(r1 * jitter)` with `|jitter term| ≤ ttlJitter`. -/
theorem C5_recycler_ttl
    (c : Recycler) (now : Int) (r1 r2 : ℚ)
    (httl : 0 < c.ttl) (hsig : c.signalPending = false)
    (husage : c.maxUsage ≤ 0 ∨ c.currentUsage + 1 ≤ c.maxUsage)
    (hr1l : 0 ≤ r1) (hr1u : r1 < 1) (hj : 0 ≤ c.ttlJitter)
    (hfresh : c.wrapped ≠ c.nextId) :
    (now ≤ c.nextTTL →
      (getTransport c now r1 r2).1 = c.wrapped
      ∧ ((getTransport c now r1 r2).2).wrapped = c.wrapped)
    ∧ (c.nextTTL < now →
      (getTransport c now r1 r2).1 = c.nextId
      ∧ (getTransport c now r1 r2).1 ≠ c.wrapped
      ∧ ((getTransport c now r1 r2).2).currentUsage = 0
      ∧ ∃ j : Int, |j| ≤ c.ttlJitter
          ∧ ((getTransport c now r1 r2).2).nextTTL = now + c.ttl + j) := by
  have husage' : ¬ (0 < c.maxUsage ∧ c.maxUsage <
      (if 0 < c.maxUsage then { c with currentUsage := c.currentUsage + 1 } else c).currentUsage) := by
    rcases husage with h | h
    · intro hc; omega
    · intro hc
      rcases hc with ⟨hpos, hlt⟩
      rw [if_pos hpos] at hlt
      simp only at hlt
      omega
  have hjit : ∀ cu : Recycler, cu.ttlJitter = c.ttlJitter → cu.nextId = c.nextId →
      cu.ttl = c.ttl →
      (resetTransport cu now r1 r2).1 = c.nextId
      ∧ (resetTransport cu now r1 r2).2.currentUsage = 0
      ∧ ∃ j : Int, |j| ≤ c.ttlJitter
          ∧ (resetTransport cu now r1 r2).2.nextTTL = now + c.ttl + j := by
    intro cu hjit hid httlc
    refine ⟨by simp [resetTransport, hid], by simp [resetTransport], ?_⟩
    have hq : 0 ≤ r1 * (cu.ttlJitter : ℚ) := by
      rw [hjit]
      exact mul_nonneg hr1l (by exact_mod_cast hj)
    have hb := goDuration_nonneg_bounds (r1 * (cu.ttlJitter : ℚ)) hq
    have hle : goDuration (r1 * (cu.ttlJitter : ℚ)) ≤ c.ttlJitter := by
      have h1 : r1 * (cu.ttlJitter : ℚ) ≤ (c.ttlJitter : ℚ) := by
        rw [hjit]
        calc r1 * (c.ttlJitter : ℚ) ≤ 1 * (c.ttlJitter : ℚ) :=
              mul_le_mul_of_nonneg_right (le_of_lt hr1u) (by exact_mod_cast hj)
          _ = (c.ttlJitter : ℚ) := one_mul _
      have := le_trans hb.2 h1
      exact_mod_cast this
    refine ⟨if (50 : ℚ) < r2 * 100 then -(goDuration (r1 * (cu.ttlJitter : ℚ)))
        else goDuration (r1 * (cu.ttlJitter : ℚ)), ?_, ?_⟩
    · split
      · rw [abs_neg, abs_of_nonneg hb.1]
        exact hle
      · rw [abs_of_nonneg hb.1]
        exact hle
    · simp only [resetTransport, httlc]
  constructor
  · intro hbefore
    have hnottl : ¬ (0 < c.ttl ∧ c.nextTTL < now) := by intro hc; omega
    by_cases hmu : 0 < c.maxUsage
    · have hnc : ¬ (0 < c.maxUsage ∧ c.maxUsage < c.currentUsage + 1) := by
        rcases husage with h | h
        · omega
        · intro hc; omega
      simp [getTransport, if_pos hmu, hnc, hnottl, hsig]
    · have hnc : ¬ (0 < c.maxUsage ∧ c.maxUsage < c.currentUsage) := by
        intro hc; omega
      simp [getTransport, if_neg hmu, hnc, hnottl, hsig]
  · intro hafter
    have httlcond : (0 < c.ttl ∧ c.nextTTL < now) := ⟨httl, hafter⟩
    simp only [getTransport, if_neg husage', if_pos httlcond]
    have := hjit (if 0 < c.maxUsage then { c with currentUsage := c.currentUsage + 1 } else c)
      (by split <;> rfl) (by split <;> rfl) (by split <;> rfl)
    exact ⟨this.1, by rw [this.1]; exact (Ne.symm hfresh), this.2.1, this.2.2⟩

/-- Witness for C5: a recycler with TTL 100 keeps instance 0 at time 50
and swaps to instance 1 at time 150, resetting usage and deadline. -/
theorem C5_witness :
    (0 : Int) < 100
    ∧ (getTransport ⟨0, 100, 10, 100, 0, 0, false, 1⟩ 50 0 0).1 = 0
    ∧ (getTransport ⟨0, 100, 10, 100, 0, 0, false, 1⟩ 150 0 0).1 = 1
    ∧ ((getTransport ⟨0, 100, 10, 100, 0, 0, false, 1⟩ 150 0 0).2).currentUsage = 0
    ∧ ∃ j : Int, |j| ≤ 10
        ∧ ((getTransport ⟨0, 100, 10, 100, 0, 0, false, 1⟩ 150 0 0).2).nextTTL
            = 150 + 100 + j := by
  have hb := C5_recycler_ttl ⟨0, 100, 10, 100, 0, 0, false, 1⟩ 50 0 0
    (by decide) rfl (Or.inl (by decide)) (by decide) (by decide) (by decide)
    (by decide)
  have ha := C5_recycler_ttl ⟨0, 100, 10, 100, 0, 0, false, 1⟩ 150 0 0
    (by decide) rfl (Or.inl (by decide)) (by decide) (by decide) (by decide)
    (by decide)
  have h1 := (hb.1 (by decide)).1
  have h2 := ha.2 (by decide)
  exact ⟨by decide, h1, h2.1, h2.2.2.1, h2.2.2.2⟩

lemma emod_toNat (a b : Int) (ha : 0 ≤ a) (hb : 0 < b) :
    (a % b).toNat = a.toNat % b.toNat := by
  conv_lhs => rw [← Int.toNat_of_nonneg ha, ← Int.toNat_of_nonneg hb.le]
  rw [← Int.natCast_mod]
  exact Int.toNat_natCast _

lemma rotatorStep_range (N : Int) (hN : 1 ≤ N) (off : Int)
    (h0 : 0 ≤ off) (hlt : off < N) :
    rotatorStep ⟨N, off, List.range N.toNat⟩
      = ((off.toNat + 1) % N.toNat, ⟨N, (off + 1) % N, List.range N.toNat⟩) := by
  have hNpos : (0 : Int) < N := by omega
  have hmod0 : 0 ≤ (off + 1) % N := Int.emod_nonneg _ (by omega)
  have hmodlt : (off + 1) % N < N := Int.emod_lt_of_pos _ hNpos
  have htn : ((off + 1) % N).toNat = (off.toNat + 1) % N.toNat := by
    rw [emod_toNat _ _ (by omega) hNpos]
    congr 1
    omega
  have hlt2 : (off.toNat + 1) % N.toNat < N.toNat :=
    Nat.mod_lt _ (by omega)
  simp only [rotatorStep]
  rw [htn]
  congr 1
  simp [List.getD, List.getElem?_range hlt2]

lemma rotatorRun_map (N : Int) (hN : 1 ≤ N) :
    ∀ (m : Nat) (off : Int), 0 ≤ off → off < N →
    (rotatorRun ⟨N, off, List.range N.toNat⟩ m).1
      = (List.range m).map (fun j => (off.toNat + j + 1) % N.toNat) := by
  intro m
  induction m with
  | zero => intro off h0 hlt; simp [rotatorRun]
  | succ m ih =>
    intro off h0 hlt
    have hNpos : (0 : Int) < N := by omega
    simp only [rotatorRun, rotatorStep_range N hN off h0 hlt]
    have ih' := ih ((off + 1) % N) (Int.emod_nonneg _ (by omega))
      (Int.emod_lt_of_pos _ hNpos)
    rw [ih']
    rw [List.range_succ_eq_map]
    simp only [List.map_cons, List.map_map, Nat.add_zero]
    congr 1
    apply List.map_congr_left
    intro j hj
    simp only [Function.comp]
    rw [emod_toNat _ _ (by omega) hNpos,
      show ((off + 1).toNat = off.toNat + 1) from by omega,
      Nat.add_assoc, Nat.mod_add_mod]
    congr 1
    omega

lemma count_block (Nn : Nat) (hNn : 1 ≤ Nn) (i : Nat) (hi : i < Nn) :
    ((List.range Nn).map (fun t => (t + 1) % Nn)).count i = 1 := by
  rcases Nn with _ | m
  · omega
  rw [show m + 1 = m + 1 from rfl, List.range_succ, List.map_append]
  have hmap : (List.range m).map (fun t => (t + 1) % (m + 1))
      = (List.range m).map (fun t => t + 1) := by
    apply List.map_congr_left
    intro t ht
    exact Nat.mod_eq_of_lt (by simp at ht; omega)
  rw [hmap]
  simp only [List.map_cons, List.map_nil, Nat.mod_self]
  rcases i with _ | i'
  · rw [List.count_append]
    have h1 : (List.map (fun t => t + 1) (List.range m)).count 0 = 0 := by
      apply List.count_eq_zero.mpr
      intro hmem
      rcases List.mem_map.mp hmem with ⟨t, _, ht⟩
      omega
    simp [h1]
  · rw [List.count_append]
    have h1 : (List.map (fun t => t + 1) (List.range m)).count (i' + 1)
        = (List.range m).count i' := by
      have hinj : Function.Injective (fun t : Nat => t + 1) := by
        intro a b hab
        simpa using hab
      exact List.count_map_of_injective _ _ hinj _
    have h2 : (List.range m).count i' = 1 :=
      List.count_eq_one_of_mem (List.nodup_range m) (List.mem_range.mpr (by omega))
    have h3 : ([0] : List Nat).count (i' + 1) = 0 := by simp
    rw [h1, h2, h3]

lemma count_cyclic (Nn : Nat) (hNn : 1 ≤ Nn) :
    ∀ (k : Nat) (i : Nat), i < Nn →
    ((List.range (Nn * k)).map (fun j => (j + 1) % Nn)).count i = k := by
  intro k
  induction k with
  | zero => intro i hi; simp
  | succ k ih =>
    intro i hi
    rw [show Nn * (k + 1) = Nn * k + Nn from by ring, List.range_add,
      List.map_append, List.count_append, ih i hi]
    have hblock : (List.map (fun x => Nn * k + x) (List.range Nn)).map
          (fun j => (j + 1) % Nn)
        = (List.range Nn).map (fun t => (t + 1) % Nn) := by
      rw [List.map_map]
      apply List.map_congr_left
      intro t ht
      simp only [Function.comp]
      rw [show Nn * k + t + 1 = t + 1 + Nn * k from by ring,
        Nat.add_mul_mod_self_left]
    rw [hblock, count_block Nn hNn i hi]

/-- C6: a rotator over `N ≥ 1` instances serves `N*k` calls in strict
cyclic order (call `j`, 0-based, goes to instance `(j+1) % N`), each
instance receiving exactly `k` calls; a rotator configured with zero
instances holds exactly one. -/
theorem C6_rotator_round_robin (N : Int) (k : Nat) (hN : 1 ≤ N) :
    ((rotatorRun (NewRotator N) (N.toNat * k)).1
      = (List.range (N.toNat * k)).map (fun j => (j + 1) % N.toNat))
    ∧ (∀ i, i < N.toNat →
        ((rotatorRun (NewRotator N) (N.toNat * k)).1.count i = k))
    ∧ (NewRotator 0).instances.length = 1 := by
  have hnew : NewRotator N = ⟨N, 0, List.range N.toNat⟩ := by
    rw [NewRotator]
    simp only [List.length_range]
    rw [if_neg (by omega)]
  have hmap := rotatorRun_map N hN (N.toNat * k) 0 (le_refl 0) (by omega)
  have hsimp : (List.range (N.toNat * k)).map
        (fun j => ((0 : Int).toNat + j + 1) % N.toNat)
      = (List.range (N.toNat * k)).map (fun j => (j + 1) % N.toNat) := by
    apply List.map_congr_left
    intro j hj
    norm_num
  rw [hnew]
  refine ⟨?_, ?_, by rw [NewRotator]; simp⟩
  · rw [hmap, hsimp]
  · intro i hi
    rw [hmap, hsimp, count_cyclic N.toNat (by omega) k i hi]

/-- Witness for C6 at `N = 3, k = 2`: the six calls follow the cycle and
each instance is hit twice. -/
theorem C6_witness :
    (1 : Int) ≤ 3
    ∧ (rotatorRun (NewRotator 3) 6).1
        = (List.range 6).map (fun j => (j + 1) % 3)
    ∧ ((rotatorRun (NewRotator 3) 6).1.count 0 = 2
        ∧ (rotatorRun (NewRotator 3) 6).1.count 1 = 2
        ∧ (rotatorRun (NewRotator 3) 6).1.count 2 = 2)
    ∧ (NewRotator 0).instances.length = 1 := by
  have h := C6_rotator_round_robin 3 2 (by decide)
  have h6 : (3 : Int).toNat * 2 = 6 := by decide
  refine ⟨by decide, ?_, ⟨?_, ?_, ?_⟩, h.2.2⟩
  · have := h.1
    rw [h6] at this
    exact this
  · have := h.2.1 0 (by decide)
    rw [h6] at this
    exact this
  · have := h.2.1 1 (by decide)
    rw [h6] at this
    exact this
  · have := h.2.1 2 (by decide)
    rw [h6] at this
    exact this

/-- C7: the percentage-jittered backoffer wrapping a backoffer that
returns `B ≥ 0`, with percentage `P ∈ [0,1]` and random draws in `[0,1)`,
produces a duration within `[B(1-P), B(1+P)]`. -/
theorem C7_jitter_bounds
    (B : Int) (P r1 r2 : ℚ)
    (wrapped : Request → Option Response → Option GoErr → Int)
    (req : Request) (resp : Option Response) (e : Option GoErr)
    (hB : 0 ≤ B) (hP0 : 0 ≤ P) (hP1 : P ≤ 1)
    (hr1l : 0 ≤ r1) (hr1u : r1 < 1)
    (hw : wrapped req resp e = B) :
    (B : ℚ) * (1 - P)
      ≤ (percentJitteredBackoff wrapped P r1 r2 req resp e : ℚ)
    ∧ (percentJitteredBackoff wrapped P r1 r2 req resp e : ℚ)
      ≤ (B : ℚ) * (1 + P) := by
  rw [percentJitteredBackoff, hw]
  have hBq : (0 : ℚ) ≤ (B : ℚ) := by exact_mod_cast hB
  have hPB : (0 : ℚ) ≤ P * (B : ℚ) := mul_nonneg hP0 hBq
  have hjw := goDuration_nonneg_bounds (P * (B : ℚ)) hPB
  set jw := goDuration (P * (B : ℚ)) with hjwdef
  have hjwq : (0 : ℚ) ≤ (jw : ℚ) := by exact_mod_cast hjw.1
  have hr1jw : (0 : ℚ) ≤ r1 * (jw : ℚ) := mul_nonneg hr1l hjwq
  have hjit := goDuration_nonneg_bounds (r1 * (jw : ℚ)) hr1jw
  set jit := goDuration (r1 * (jw : ℚ)) with hjitdef
  have hjitPB : (jit : ℚ) ≤ P * (B : ℚ) := by
    calc (jit : ℚ) ≤ r1 * (jw : ℚ) := hjit.2
      _ ≤ 1 * (jw : ℚ) := mul_le_mul_of_nonneg_right (le_of_lt hr1u) hjwq
      _ = (jw : ℚ) := one_mul _
      _ ≤ P * (B : ℚ) := hjw.2
  have hjitq : (0 : ℚ) ≤ (jit : ℚ) := by exact_mod_cast hjit.1
  rw [calculateJitteredBackoff]
  simp only [← hjwdef, ← hjitdef]
  split
  · push_cast
    constructor
    · calc (B : ℚ) * (1 - P) = (B : ℚ) - P * (B : ℚ) := by ring
        _ ≤ (B : ℚ) - (jit : ℚ) := by linarith
        _ = (B : ℚ) + -(jit : ℚ) := by ring
    · calc (B : ℚ) + -(jit : ℚ) ≤ (B : ℚ) := by linarith
        _ ≤ (B : ℚ) * (1 + P) := by nlinarith
  · push_cast
    constructor
    · calc (B : ℚ) * (1 - P) ≤ (B : ℚ) := by nlinarith
        _ ≤ (B : ℚ) + (jit : ℚ) := by linarith
    · calc (B : ℚ) + (jit : ℚ) ≤ (B : ℚ) + P * (B : ℚ) := by linarith
        _ = (B : ℚ) * (1 + P) := by ring

/-- Witness for C7: a fixed 1ms backoff jittered at 100 percent with a
zero random draw stays within `[0, 2ms]`. -/
theorem C7_witness :
    (0 : Int) ≤ 1000000
    ∧ ((1000000 : Int) : ℚ) * (1 - 1)
        ≤ ((percentJitteredBackoff (fixedBackoff 1000000) 1 0 0 ⟨0⟩ none none : Int) : ℚ)
    ∧ ((percentJitteredBackoff (fixedBackoff 1000000) 1 0 0 ⟨0⟩ none none : Int) : ℚ)
        ≤ ((1000000 : Int) : ℚ) * (1 + 1) := by
  have h := C7_jitter_bounds 1000000 1 0 0 (fixedBackoff 1000000) ⟨0⟩ none none
    (by decide) (by decide) (by decide) (by decide) (by decide) rfl
  exact ⟨by decide, h.1, h.2⟩

/-- The retrier instances one outer `Retry.RoundTrip` call obtains by
invoking every configured factory at its start, with the allocation state
threaded to the next outer call. -/
def retryCallInstanceIds (pols : List RetryPolicyA) (s : Nat) : List Nat × Nat :=
  let (rs, s') := callPolicies pols s
  (rs.map AllocRetrier.instId, s')

lemma callPolicies_cons (p : RetryPolicyA) (ps : List RetryPolicyA) (s : Nat) :
    callPolicies (p :: ps) s
      = ((p.call s).1 :: (callPolicies ps (p.call s).2).1,
         (callPolicies ps (p.call s).2).2) := by
  simp only [callPolicies]

lemma callPolicies_mono : ∀ (pols : List RetryPolicyA),
    (∀ p ∈ pols, PolicyMono p) → ∀ s, s ≤ (callPolicies pols s).2
  | [], _, s => le_refl s
  | p :: ps, h, s => by
    have h1 : s ≤ (p.call s).2 := h p (by simp) s
    have h2 := callPolicies_mono ps (fun q hq => h q (by simp [hq])) (p.call s).2
    rw [callPolicies_cons]
    exact le_trans h1 h2

lemma limitedPolicyA_call (limit : Int) (pols : List RetryPolicyA) (a s : Nat) :
    (NewLimitedRetryPolicyA limit pols a).1.call s
      = (⟨(callPolicies pols s).2,
          Retrier.limited limit 0 ((callPolicies pols s).1.map AllocRetrier.spec)⟩,
         (callPolicies pols s).2 + 1) := by
  simp only [NewLimitedRetryPolicyA]

/-- C8 counterexample: a `Retry` decorator configured with
`NewStatusCodeRetryPolicy` hands the SAME retrier instance (allocation
id 0, captured by the factory closure at construction time) to two
distinct successive outer calls, contradicting "never the same
instances". -/
theorem C8_counterexample :
    (retryCallInstanceIds [(NewStatusCodeRetryPolicyA [500] 0).1] 1).1 = [0]
    ∧ (retryCallInstanceIds [(NewStatusCodeRetryPolicyA [500] 0).1]
        ((retryCallInstanceIds [(NewStatusCodeRetryPolicyA [500] 0).1] 1).2)).1
        = [0] :=
  ⟨rfl, rfl⟩

/-- C8 (amended): the factories are invoked afresh at the start of each
outer call, but the stateless stock policies (`NewStatusCodeRetryPolicy`,
`NewTimeoutRetryPolicy`, `NewFixedBackoffPolicy`) capture one instance at
construction and return that same instance from every factory call, so
distinct outer calls share it; only the stateful bounded combinator
(`NewLimitedRetryPolicy`) allocates a fresh `LimitedRetrier` (with its
attempt counter at zero) on every factory call, which keeps attempt-count
state scoped to a single outer call. -/
theorem C8_amended_policy_instance_scoping :
    (∀ (codes : List Int) (a s s' : Nat),
      ((NewStatusCodeRetryPolicyA codes a).1.call s).1.instId
        = ((NewStatusCodeRetryPolicyA codes a).1.call s').1.instId)
    ∧ (∀ (t : Int) (a s s' : Nat),
      ((NewTimeoutRetryPolicyA t a).1.call s).1.instId
        = ((NewTimeoutRetryPolicyA t a).1.call s').1.instId)
    ∧ (∀ (w : Int) (a s s' : Nat),
      ((NewFixedBackoffPolicyA w a).1.call s).1.1
        = ((NewFixedBackoffPolicyA w a).1.call s').1.1)
    ∧ (∀ (limit : Int) (pols : List RetryPolicyA) (a s : Nat),
      (∀ p ∈ pols, PolicyMono p) →
      ((NewLimitedRetryPolicyA limit pols a).1.call s).1.instId
          ≠ ((NewLimitedRetryPolicyA limit pols a).1.call
              (((NewLimitedRetryPolicyA limit pols a).1.call s).2)).1.instId
      ∧ ((NewLimitedRetryPolicyA limit pols a).1.call s).1.spec
          = Retrier.limited limit 0
              ((callPolicies pols s).1.map AllocRetrier.spec)) := by
  refine ⟨fun codes a s s' => rfl, fun t a s s' => rfl, fun w a s s' => rfl,
    fun limit pols a s hmono => ?_⟩
  constructor
  · rw [limitedPolicyA_call, limitedPolicyA_call]
    simp only
    have := callPolicies_mono pols hmono ((callPolicies pols s).2 + 1)
    omega
  · rw [limitedPolicyA_call]

/-- Witness for C8 (amended): the status-code factory returns the shared
instance (id 0) on calls at states 1 and 5; the bounded combinator over
it returns distinct fresh instances on two successive calls. -/
theorem C8_witness :
    ((NewStatusCodeRetryPolicyA [500] 0).1.call 1).1.instId
      = ((NewStatusCodeRetryPolicyA [500] 0).1.call 5).1.instId
    ∧ ((NewLimitedRetryPolicyA 3 [(NewStatusCodeRetryPolicyA [500] 0).1] 1).1.call 1).1.instId
      ≠ ((NewLimitedRetryPolicyA 3 [(NewStatusCodeRetryPolicyA [500] 0).1] 1).1.call
          (((NewLimitedRetryPolicyA 3 [(NewStatusCodeRetryPolicyA [500] 0).1] 1).1.call 1).2)).1.instId := by
  have h := C8_amended_policy_instance_scoping
  refine ⟨h.1 [500] 0 1 5,
    (h.2.2.2 3 [(NewStatusCodeRetryPolicyA [500] 0).1] 1 1 ?_).1⟩
  intro p hp
  simp only [List.mem_singleton] at hp
  subst hp
  intro s
  exact le_refl s
